import Mathlib

/-!
Verification development for the TaoWidget service.

Shallow embedding of the core logic of the repository:
* app/routers.py    — block sampling, per-block balance/stake helpers,
                      daily aggregation, address shortening, chart endpoint;
* app/subtensor_manager.py — the connection manager (modelled as a pure
                      state-transition function over the observable events of
                      one scoped acquisition).

Python datetimes are modelled as a calendar day (an integer) together with a
rational time-of-day; floats are modelled as rationals; Python ints as ℤ.
Python floor division (the // operator) is modelled by Int.fdiv.
The remote chain client is an external collaborator: every call a helper makes
to it is modelled as an explicit input of type Except ChainErr - (failure of
the call) or Option/value (its successful payload), exactly at the call sites
the source has.
-/

namespace TaoWidget

/-- Model of a Python datetime: a calendar day index and a time-of-day.
The replace(hour=0, minute=0, second=0, microsecond=0) truncation zeroes the
time-of-day component; timedelta(days=k) subtraction shifts the day index. -/
structure DateTime where
  day : ℤ
  tod : ℚ
deriving DecidableEq, Repr

/-- Model of datetime.replace(hour=0, minute=0, second=0, microsecond=0). -/
def DateTime.trunc (t : DateTime) : DateTime := ⟨t.day, 0⟩

/-- Model of datetime minus timedelta(days = k). -/
def DateTime.subDays (t : DateTime) (k : ℤ) : DateTime := ⟨t.day - k, t.tod⟩

/-- Boolean comparison of datetimes, lexicographic on (day, time-of-day);
this is how Python sorted() compares datetime keys. -/
def dtLeb (a b : DateTime) : Bool :=
  decide (a.day < b.day) || (decide (a.day = b.day) && decide (a.tod ≤ b.tod))

/-- Strict chronological order on modelled datetimes. -/
def DateTime.ltP (a b : DateTime) : Prop :=
  a.day < b.day ∨ (a.day = b.day ∧ a.tod < b.tod)

/-- Model of app/models.py HistoricalData. -/
structure HistoricalData where
  block_number : ℤ
  timestamp : DateTime
  value : ℚ
deriving DecidableEq, Repr

/-- Model of app/models.py DailyData. -/
structure DailyData where
  date : DateTime
  balance : ℚ
  stake : ℚ
deriving DecidableEq, Repr

/-- Model of one entry of the list returned by the
StakeInfoRuntimeApi.get_stake_info_for_coldkey runtime call: the code reads
the per-entry stake amount (in planck); entries also carry a network id. -/
structure StakeEntry where
  netuid : ℤ
  stake : ℤ
deriving DecidableEq, Repr

/-- Opaque error value for a failed chain call. -/
abbrev ChainErr := ℕ

/-- Model of BLOCKS_PER_DAY = 7200 from app/routers.py. -/
def BLOCKS_PER_DAY : ℤ := 7200

/-- Character class of the regex ranges a-z, A-Z, 0-9 used by
shorten_address in app/routers.py. -/
def isAlnum (c : Char) : Bool :=
  (decide ('a' ≤ c) && decide (c ≤ 'z')) ||
  (decide ('A' ≤ c) && decide (c ≤ 'Z')) ||
  (decide ('0' ≤ c) && decide (c ≤ '9'))

/-- Meaning of re.sub applied with the pattern that deletes a leading run and
a trailing run of non-alphanumeric characters (the pattern anchored with the
start-of-string and end-of-string markers in shorten_address): it strips
non-alphanumeric characters from both ends of the string. -/
def stripJunk (s : List Char) : List Char :=
  ((s.dropWhile (fun c => !isAlnum c)).reverse.dropWhile (fun c => !isAlnum c)).reverse

/-- Model of shorten_address from app/routers.py, on strings as char lists. -/
def shorten_address (address : List Char) : List Char :=
  let clean_address := stripJunk address
  if clean_address.length ≤ 12 then clean_address
  else clean_address.take 6 ++ ['.', '.', '.'] ++
       clean_address.drop (clean_address.length - 6)

/-- Model of the Python expression
range(current_block, current_block - total_blocks, -BLOCKS_PER_DAY) with
total_blocks = days * BLOCKS_PER_DAY, via the CPython length formula for a
negative-step range: the element count is
max 0 ((start - stop + step - 1) fdiv step) for step the absolute step. -/
def blocksRange (current : ℤ) (days : ℤ) : List ℤ :=
  (List.range ((days * BLOCKS_PER_DAY + (BLOCKS_PER_DAY - 1)).fdiv
      BLOCKS_PER_DAY).toNat).map
    (fun i : ℕ => current - BLOCKS_PER_DAY * (i : ℤ))

/-- Model of _get_stake_at_block from app/routers.py.  Its chain calls are
explicit inputs: runtimeResult is the outcome of get_block_hash plus the
runtime_call (an error if either call failed, otherwise the decoded value,
which may be None); curAtQuery is the outcome of the get_block_number call
made after a non-None result; now is datetime.now().  When the runtime call
returns None the function returns (block, now, 0.0) before ever fetching the
block number.  Otherwise it sums the positive stake entries, divides by 1e9,
and dates the sample now minus (current - block) // BLOCKS_PER_DAY days. -/
def _get_stake_at_block (runtimeResult : Except ChainErr (Option (List StakeEntry)))
    (now : DateTime) (curAtQuery : Except ChainErr ℤ) (block : ℤ) :
    Except ChainErr (ℤ × DateTime × ℚ) :=
  match runtimeResult with
  | .error e => .error e
  | .ok none => .ok (block, now, 0)
  | .ok (some entries) =>
    match curAtQuery with
    | .error e => .error e
    | .ok c =>
      let total_stake := ((entries.filter (fun s => decide (0 < s.stake))).map
        StakeEntry.stake).sum
      .ok (block, now.subDays ((c - block).fdiv BLOCKS_PER_DAY),
           (total_stake : ℚ) / 1000000000)

/-- Modelled from the spec: the stake-summation policy stated by the spec
sentence for the stake query, which sums the entries whose network identifier
indicates the root/default network (id 0).  This definition follows the
spec's words and is compared against the source's summation. -/
def rootStakeSumSpec (entries : List StakeEntry) : ℤ :=
  ((entries.filter (fun s => decide (s.netuid = 0))).map StakeEntry.stake).sum

/-- Model of the body of get_historical_balance after the current block is
known: one task per block in the range, gathered with exceptions captured
(return_exceptions=True) and then filtered out; each surviving triple becomes
a HistoricalData.  The per-block work (hash lookup, storage query, unit
conversion, timestamp) is the input oracle sample, whose value is the
(timestamp, balance) pair the task would return for that block. -/
def balanceSeries (current : ℤ) (sample : ℤ → Except ChainErr (DateTime × ℚ))
    (days : ℤ) : List HistoricalData :=
  let blocks := blocksRange current days
  let results := blocks.map (fun b => (sample b).map (fun p => (b, p)))
  (results.filterMap Except.toOption).map
    (fun t => ⟨t.1, t.2.1, t.2.2⟩)

/-- Model of the body of get_historical_stake after the current block is
known: a sequential loop over the block range that appends each successful
sample and, on an exception, logs and continues with the next block. -/
def stakeSeries (current : ℤ) (sample : ℤ → Except ChainErr (DateTime × ℚ))
    (days : ℤ) : List HistoricalData :=
  let blocks := blocksRange current days
  let results := blocks.foldl
    (fun acc b =>
      match sample b with
      | .ok p => acc ++ [(b, p)]
      | .error _ => acc)
    []
  results.map (fun t => ⟨t.1, t.2.1, t.2.2⟩)

/-- Model of the get_historical_balance endpoint: the current-block fetch is
the input getCur; if it fails the whole request fails, otherwise the gathered
and filtered series is returned. -/
def get_historical_balance (getCur : Except ChainErr ℤ)
    (sample : ℤ → Except ChainErr (DateTime × ℚ)) (days : ℤ) :
    Except ChainErr (List HistoricalData) :=
  match getCur with
  | .error e => .error e
  | .ok current => .ok (balanceSeries current sample days)

/-- Model of the get_historical_stake endpoint, sequential variant. -/
def get_historical_stake (getCur : Except ChainErr ℤ)
    (sample : ℤ → Except ChainErr (DateTime × ℚ)) (days : ℤ) :
    Except ChainErr (List HistoricalData) :=
  match getCur with
  | .error e => .error e
  | .ok current => .ok (stakeSeries current sample days)

/-- Accumulator value of the daily_data defaultdict in get_combined_data:
the per-day dict with balance and stake fields, both defaulting to 0.0. -/
structure DayAccum where
  balance : ℚ
  stake : ℚ
deriving DecidableEq, Repr

/-- Default value produced by the defaultdict factory in get_combined_data. -/
def dayAccumDefault : DayAccum := ⟨0, 0⟩

/-- Model of an update daily_data[d][field] = v on a Python dict represented
as an insertion-ordered association list: if the key is present its value is
updated in place, otherwise the defaultdict appends the key bound to the
factory default transformed by the update. -/
def dictSet (m : List (DateTime × DayAccum)) (d : DateTime)
    (f : DayAccum → DayAccum) : List (DateTime × DayAccum) :=
  match m with
  | [] => [(d, f dayAccumDefault)]
  | (k, v) :: rest =>
    if k = d then (k, f v) :: rest else (k, v) :: dictSet rest d f

/-- Lookup in the association-list model of the dict. -/
def dictGet? (m : List (DateTime × DayAccum)) (d : DateTime) : Option DayAccum :=
  match m with
  | [] => none
  | (k, v) :: rest => if k = d then some v else dictGet? rest d

/-- Model of the aggregation part of get_combined_data in app/routers.py:
group the balance samples and then the stake samples by the timestamp
truncated to the day, last write per metric winning, missing metric left at
the 0.0 default; finally sorted(daily_data.items()) ordered by key. -/
def aggregateDaily (bal stk : List (ℤ × DateTime × ℚ)) : List DailyData :=
  let m1 := bal.foldl
    (fun m r => dictSet m (r.2.1.trunc) (fun s => { s with balance := r.2.2 })) []
  let m2 := stk.foldl
    (fun m r => dictSet m (r.2.1.trunc) (fun s => { s with stake := r.2.2 })) m1
  (m2.mergeSort (fun a b => dtLeb a.1 b.1)).map
    (fun p => ⟨p.1, p.2.balance, p.2.stake⟩)

/-- Model of the response of the chart endpoint: either the 404 branch with
its plain-text body, or a streamed image produced by the rendering code. -/
inductive ChartResponse where
  | notFound (status : ℕ) (body : List Char)
  | image (png : List ℕ)
deriving DecidableEq, Repr

/-- Model of get_chart from app/routers.py, after get_combined_data produced
the merged series data: an empty series short-circuits to a 404 response with
the no-data message, and only a non-empty series reaches the matplotlib
rendering pipeline, modelled by the collaborator render producing the PNG
byte stream. -/
def get_chart (render : List DailyData → List ℕ) (data : List DailyData) :
    ChartResponse :=
  if data.isEmpty then
    .notFound 404 "No data available for the specified period".data
  else
    .image (render data)

/-- Observable connection-lifecycle events of the SubtensorManager model:
a successful construction of a connection (identified by a fresh counter
value) and an invocation of the close routine of a connection. -/
inductive Ev where
  | closeCall (c : ℕ)
  | createCall (c : ℕ)
deriving DecidableEq, Repr

/-- Outcome of one full async-with scope over SubtensorManager.get_subtensor:
the events observed while entering (the protocol advancing the generator to
its first yield), the events observed while exiting (resuming or throwing
into the generator, plus the eventual finalization of a generator left
suspended), the handle yielded to the body, the stored substrate and creation
counter after the scope is fully finalized, and whether the scope raised an
exception to its caller. -/
structure ScopeOut where
  enterEv : List Ev
  exitEv : List Ev
  yielded : Option ℕ
  stAfter : Option ℕ
  ctrAfter : ℕ
  raisedToCaller : Bool
deriving DecidableEq, Repr

/-- Shared continuation of runScope for the case where the generator reached
the yield inside the try block holding connection c (the local variable
substrate equals the stored substrate equals c).  If the body succeeds, the
generator resumes, the final cleanup sees the local equal to the stored
substrate and closes nothing, and the scope ends cleanly.  If the body
raises, the exception is thrown into the generator at the yield and caught by
the except handler, which closes c (outcome discarded), clears the stored
substrate and constructs a replacement: on construction success the stored
substrate becomes the fresh connection and the generator yields a second
time, which makes the scope exit raise the protocol error for a generator
that did not stop, and the later finalization of the suspended generator runs
the cleanup, which sees the local c differing from the stored substrate and
closes c once more; on construction failure the cleanup likewise closes c a
second time and the construction error propagates. -/
def scopeBody (c : ℕ) (enterEv : List Ev) (ctr : ℕ)
    (createOk bodyFails : ℕ → Bool) (closeFails : ℕ → Bool) : ScopeOut :=
  if bodyFails c then
    let _ := closeFails c
    if createOk ctr then
      ⟨enterEv, [.closeCall c, .createCall ctr, .closeCall c],
       some c, some ctr, ctr + 1, true⟩
    else
      ⟨enterEv, [.closeCall c, .closeCall c], some c, none, ctr + 1, true⟩
  else
    ⟨enterEv, [], some c, some c, ctr, false⟩

/-- Model of one execution of async with manager.get_subtensor() as s: body,
translated from SubtensorManager.get_subtensor in app/subtensor_manager.py
together with the async context-manager protocol.  The manager state is the
stored substrate (st) and conn identities come from a creation counter (the
k-th construction attempt produces handle k and succeeds iff createOk k);
bodyFails says whether the body raises while using a given handle, and
closeFails gives the outcome of a close call, which the source discards
unconditionally (bare except around every close).  Entry: if a substrate is
stored it is yielded as is; otherwise one is constructed, and on construction
failure the except handler retries the construction once (no close, nothing
stored) and yields from inside the except handler, in which case a body
failure propagates uncaught (the yield is not inside the try block) and the
stored substrate is left in place; if the retry also fails the scope raises
to the caller.  Finalization events of a generator left suspended are
recorded in exitEv. -/
def runScope (st : Option ℕ) (ctr : ℕ) (createOk bodyFails : ℕ → Bool)
    (closeFails : ℕ → Bool) : ScopeOut :=
  match st with
  | some c => scopeBody c [] ctr createOk bodyFails closeFails
  | none =>
    if createOk ctr then
      scopeBody ctr [.createCall ctr] (ctr + 1) createOk bodyFails closeFails
    else
      if createOk (ctr + 1) then
        if bodyFails (ctr + 1) then
          ⟨[.createCall (ctr + 1)], [], some (ctr + 1), some (ctr + 1),
           ctr + 2, true⟩
        else
          ⟨[.createCall (ctr + 1)], [], some (ctr + 1), some (ctr + 1),
           ctr + 2, false⟩
      else
        ⟨[], [], none, none, ctr + 2, true⟩

/-- Oracle under which every construction attempt succeeds. -/
def allOk : ℕ → Bool := fun _ => true

/-! Helper lemmas about the block range. -/

theorem blocksCount_eq (days : ℤ) :
    (days * BLOCKS_PER_DAY + (BLOCKS_PER_DAY - 1)).fdiv BLOCKS_PER_DAY = days := by
  have h : (0 : ℤ) ≤ BLOCKS_PER_DAY := by norm_num [BLOCKS_PER_DAY]
  rw [Int.fdiv_eq_ediv _ h]
  show (days * 7200 + (7200 - 1)) / 7200 = days
  omega

theorem blocksRange_eq (current days : ℤ) :
    blocksRange current days =
      (List.range days.toNat).map (fun i : ℕ => current - BLOCKS_PER_DAY * (i : ℤ)) := by
  rw [blocksRange, blocksCount_eq]

theorem blocksRange_length (current days : ℤ) :
    (blocksRange current days).length = days.toNat := by
  rw [blocksRange_eq, List.length_map, List.length_range]

theorem blocksRange_nil (current : ℤ) {days : ℤ} (h : days ≤ 0) :
    blocksRange current days = [] := by
  rw [blocksRange_eq]
  have : days.toNat = 0 := by omega
  simp [this]

theorem blocksRange_pairwise (current days : ℤ) :
    (blocksRange current days).Pairwise (· > ·) := by
  rw [blocksRange_eq]
  rw [List.pairwise_map]
  exact (List.pairwise_lt_range days.toNat).imp (fun {i j} hij => by
    simp only [gt_iff_lt, BLOCKS_PER_DAY]
    omega)

theorem blocksRange_chain (current days : ℤ) :
    List.Chain' (fun a b => a - b = BLOCKS_PER_DAY) (blocksRange current days) := by
  rw [blocksRange_eq, List.chain'_map]
  cases hn : days.toNat with
  | zero => simp
  | succ n =>
    rw [List.chain'_range_succ]
    intro m _
    simp only [BLOCKS_PER_DAY]
    push_cast
    ring

theorem blocksRange_mem_bounds {current days : ℤ} (hd : 1 ≤ days) :
    ∀ b ∈ blocksRange current days,
      current - days * BLOCKS_PER_DAY < b ∧ b ≤ current := by
  rw [blocksRange_eq]
  intro b hb
  rcases List.mem_map.mp hb with ⟨i, hi, rfl⟩
  rcases List.mem_range.mp hi with hilt
  have : (i : ℤ) < days := by omega
  constructor
  · simp only [BLOCKS_PER_DAY] at *; omega
  · simp only [BLOCKS_PER_DAY]; omega

theorem blocksRange_self_mem {current days : ℤ} (hd : 1 ≤ days) :
    current ∈ blocksRange current days := by
  rw [blocksRange_eq]
  refine List.mem_map.mpr ⟨0, ?_, by simp⟩
  refine List.mem_range.mpr ?_
  omega

/-! Helper lemmas putting the two sampled series in filterMap form. -/

@[simp] theorem chainToOption_ok {α : Type} (a : α) :
    (Except.ok a : Except ChainErr α).toOption = some a := rfl

@[simp] theorem chainToOption_error {α : Type} (e : ChainErr) :
    (Except.error e : Except ChainErr α).toOption = none := rfl

@[simp] theorem chainIsOk_ok {α : Type} (a : α) :
    (Except.ok a : Except ChainErr α).isOk = true := rfl

@[simp] theorem chainIsOk_error {α : Type} (e : ChainErr) :
    (Except.error e : Except ChainErr α).isOk = false := rfl

theorem stakeFold_eq (sample : ℤ → Except ChainErr (DateTime × ℚ)) :
    ∀ (l : List ℤ) (acc : List (ℤ × DateTime × ℚ)),
      l.foldl
        (fun acc b =>
          match sample b with
          | .ok p => acc ++ [(b, p)]
          | .error _ => acc)
        acc
      = acc ++ l.filterMap (fun b => (sample b).toOption.map (fun p => (b, p)))
  | [], acc => by simp
  | b :: l, acc => by
    cases hsb : sample b with
    | ok p =>
      simp only [List.foldl_cons, hsb, List.filterMap_cons, chainToOption_ok,
        Option.map_some]
      rw [stakeFold_eq sample l (acc ++ [(b, p)])]
      simp
    | error e =>
      simp only [List.foldl_cons, hsb, List.filterMap_cons, chainToOption_error,
        Option.map_none]
      exact stakeFold_eq sample l acc

theorem stakeSeries_eq (current : ℤ) (sample : ℤ → Except ChainErr (DateTime × ℚ))
    (days : ℤ) :
    stakeSeries current sample days =
      ((blocksRange current days).filterMap
        (fun b => (sample b).toOption.map (fun p => (b, p)))).map
        (fun t => ⟨t.1, t.2.1, t.2.2⟩) := by
  rw [stakeSeries, stakeFold_eq]
  simp

theorem gatherMap_eq (sample : ℤ → Except ChainErr (DateTime × ℚ)) (l : List ℤ) :
    (l.map (fun b => (sample b).map (fun p => (b, p)))).filterMap Except.toOption
      = l.filterMap (fun b => (sample b).toOption.map (fun p => (b, p))) := by
  induction l with
  | nil => simp
  | cons b l ih =>
    cases hsb : sample b with
    | ok p =>
      simp only [List.map_cons, List.filterMap_cons, hsb, Except.map_ok,
        chainToOption_ok, Option.map_some, ih]
      rfl
    | error e =>
      simp only [List.map_cons, List.filterMap_cons, hsb, Except.map_error,
        chainToOption_error, Option.map_none, ih]
      rfl

theorem balanceSeries_eq (current : ℤ) (sample : ℤ → Except ChainErr (DateTime × ℚ))
    (days : ℤ) :
    balanceSeries current sample days =
      ((blocksRange current days).filterMap
        (fun b => (sample b).toOption.map (fun p => (b, p)))).map
        (fun t => ⟨t.1, t.2.1, t.2.2⟩) := by
  rw [balanceSeries, gatherMap_eq]

theorem filterMap_pair_map_block (l : List ℤ)
    (sample : ℤ → Except ChainErr (DateTime × ℚ)) :
    ((l.filterMap (fun b => (sample b).toOption.map (fun p => (b, p)))).map
        (fun t : ℤ × DateTime × ℚ => (⟨t.1, t.2.1, t.2.2⟩ : HistoricalData))).map
      (fun r => r.block_number)
      = l.filter (fun b => (sample b).isOk) := by
  induction l with
  | nil => simp
  | cons b l ih =>
    cases hsb : sample b <;>
      simp [hsb, List.filterMap_cons, List.filter_cons, ih]

theorem balanceSeries_map_block (current : ℤ)
    (sample : ℤ → Except ChainErr (DateTime × ℚ)) (days : ℤ) :
    (balanceSeries current sample days).map (fun r => r.block_number) =
      (blocksRange current days).filter (fun b => (sample b).isOk) := by
  rw [balanceSeries_eq]
  exact filterMap_pair_map_block _ sample

theorem stakeSeries_map_block (current : ℤ)
    (sample : ℤ → Except ChainErr (DateTime × ℚ)) (days : ℤ) :
    (stakeSeries current sample days).map (fun r => r.block_number) =
      (blocksRange current days).filter (fun b => (sample b).isOk) := by
  rw [stakeSeries_eq]
  exact filterMap_pair_map_block _ sample

/-! Claim C3: address shortening. -/

/-- C3, counterexample: the claim states that an address of length at most 12
is returned unchanged, but shorten_address first strips non-alphanumeric
characters from both ends, so the 5-character address built from two dashes,
the letter a and two dashes is returned as the single letter a. -/
theorem claim_C3_counterexample :
    "--a--".data.length ≤ 12 ∧ shorten_address "--a--".data ≠ "--a--".data := by
  decide

/-- C3, amended: after stripping leading and trailing non-alphanumeric
characters, an address whose cleaned form has length at most 12 is returned
as that cleaned form (hence unchanged whenever the address is purely
alphanumeric), and a longer one is abbreviated to the first 6 characters,
three dots, and the last 6 characters of the cleaned form (total length 15);
in particular the 20-character address abcdefghij1234567890 becomes
abcdef...567890. -/
theorem claim_C3_amended (s : List Char) :
    ((stripJunk s).length ≤ 12 → shorten_address s = stripJunk s) ∧
    (12 < (stripJunk s).length →
      shorten_address s =
        (stripJunk s).take 6 ++ ['.', '.', '.'] ++
          (stripJunk s).drop ((stripJunk s).length - 6) ∧
      (shorten_address s).length = 15) ∧
    ((∀ c ∈ s, isAlnum c) → stripJunk s = s) ∧
    shorten_address "abcdefghij1234567890".data = "abcdef...567890".data := by
  refine ⟨?_, ?_, ?_, by decide⟩
  · intro hle
    simp [shorten_address, hle]
  · intro hgt
    have hle : ¬ (stripJunk s).length ≤ 12 := by omega
    refine ⟨by simp [shorten_address, hle], ?_⟩
    have he : shorten_address s =
        (stripJunk s).take 6 ++ ['.', '.', '.'] ++
          (stripJunk s).drop ((stripJunk s).length - 6) := by
      simp [shorten_address, hle]
    rw [he]
    simp only [List.length_append, List.length_take, List.length_drop,
      List.length_cons, List.length_nil]
    omega
  · intro hall
    have h1 : s.dropWhile (fun c => !isAlnum c) = s := by
      cases s with
      | nil => rfl
      | cons a l => simp [List.dropWhile_cons, hall a (by simp)]
    have h2 : s.reverse.dropWhile (fun c => !isAlnum c) = s.reverse := by
      cases hs : s.reverse with
      | nil => rfl
      | cons a l =>
        have ha : a ∈ s := by
          have hm : a ∈ s.reverse := by rw [hs]; exact List.mem_cons_self a l
          simpa using hm
        simp [List.dropWhile_cons, hall a ha]
    simp [stripJunk, h1, h2]

/-- C3, witness: the amended theorem applied at a purely alphanumeric short
address and at the 20-character example. -/
theorem claim_C3_witness :
    shorten_address "KeyABC".data = "KeyABC".data ∧
    shorten_address "abcdefghij1234567890".data = "abcdef...567890".data :=
  ⟨((claim_C3_amended "KeyABC".data).1 (by decide)).trans (by decide),
   (claim_C3_amended "KeyABC".data).2.2.2⟩

/-! Claim C2: the stake-summation policy. -/

theorem positiveSum_foldr (entries : List StakeEntry) :
    ((entries.filter (fun s => decide (0 < s.stake))).map StakeEntry.stake).sum
      = entries.foldr (fun e acc => if 0 < e.stake then e.stake + acc else acc) 0 := by
  induction entries with
  | nil => simp
  | cons e l ih =>
    by_cases he : 0 < e.stake <;> simp [List.filter_cons, he, ih]

/-- C2, counterexample: the claim states the per-block stake value is the sum
of the entries whose network id indicates the root network, divided by 1e9;
but on a single entry with network id 1 and stake 5 the code returns 5 / 1e9
while the root-network sum is 0. -/
theorem claim_C2_counterexample :
    _get_stake_at_block (.ok (some [⟨1, 5⟩])) ⟨0, 0⟩ (.ok 0) 0 =
      .ok (0, ⟨0, 0⟩, (5 : ℚ) / 1000000000) ∧
    rootStakeSumSpec [⟨1, 5⟩] = 0 ∧
    (rootStakeSumSpec [⟨1, 5⟩] : ℚ) / 1000000000 = 0 ∧
    (5 : ℚ) / 1000000000 ≠ 0 := by
  have hroot : rootStakeSumSpec [⟨1, 5⟩] = 0 := by
    simp [rootStakeSumSpec]
  refine ⟨?_, hroot, by rw [hroot]; norm_num, by norm_num⟩
  simp [_get_stake_at_block, DateTime.subDays]

/-- C2, amended: for every sampled block whose runtime call succeeds with a
list of entries, the returned stake value is the sum of all entries with
positive stake, regardless of their network id, divided by 1e9 (and the
sample is timestamped now minus the floor of (current - block) / 7200 days). -/
theorem claim_C2_amended (entries : List StakeEntry) (now : DateTime)
    (c block : ℤ) :
    _get_stake_at_block (.ok (some entries)) now (.ok c) block =
      .ok (block, now.subDays ((c - block).fdiv BLOCKS_PER_DAY),
        ((entries.foldr (fun e acc => if 0 < e.stake then e.stake + acc else acc)
          0 : ℤ) : ℚ) / 1000000000) := by
  simp only [_get_stake_at_block]
  rw [positiveSum_foldr]

/-! Claim C9: the None branch of the stake helper. -/

/-- C9: when the runtime call returns None, the stake sample is reported as
value 0.0 with timestamp exactly datetime.now() and no day offset (the block
number fetch is never consulted), so aggregation buckets such a sample into
the calendar day of now — the current day — no matter which block it was
sampled for.  Aggregating one such sample alone produces exactly the bucket
of the current day. -/
theorem claim_C9 (now : DateTime) (curAtQuery : Except ChainErr ℤ) (block : ℤ) :
    _get_stake_at_block (.ok none) now curAtQuery block = .ok (block, now, 0) ∧
    aggregateDaily [] [(block, now, 0)] = [⟨now.trunc, 0, 0⟩] := by
  constructor
  · rfl
  · simp [aggregateDaily, dictSet, dayAccumDefault]

/-! Claim C6: the empty-series branch of the chart endpoint. -/

/-- C6: with an empty merged series the chart endpoint answers 404 with the
plain-text no-data body and never invokes the renderer (the response does not
depend on the rendering collaborator at all); with a non-empty series it
returns the image produced by the renderer. -/
theorem claim_C6 (render render2 : List DailyData → List ℕ)
    (data : List DailyData) :
    (data = [] →
      get_chart render data =
        .notFound 404 "No data available for the specified period".data ∧
      get_chart render data = get_chart render2 data) ∧
    (data ≠ [] → get_chart render data = .image (render data)) := by
  constructor
  · rintro rfl
    exact ⟨rfl, rfl⟩
  · intro hne
    have hf : data.isEmpty = false := by
      simpa [List.isEmpty_iff] using hne
    simp [get_chart, hf]

/-- C6, witness: the theorem applied to the empty series and to a concrete
one-day series. -/
theorem claim_C6_witness :
    get_chart (fun _ => [0]) [] =
      .notFound 404 "No data available for the specified period".data ∧
    get_chart (fun _ => [0]) [⟨⟨0, 0⟩, 0, 0⟩] = .image [0] :=
  ⟨((claim_C6 (fun _ => [0]) (fun _ => [7]) []).1 rfl).1,
   (claim_C6 (fun _ => [0]) (fun _ => [7]) [⟨⟨0, 0⟩, 0, 0⟩]).2 (by decide)⟩

/-! Claim C1: connection recovery in the SubtensorManager. -/

/-- C1, counterexample: run a first scope in which the connection (handle 0)
is created and the body then fails, and a second scope (the next
acquisition).  The next acquisition performs no events at all while entering
— in particular it does not close the stale connection — and across the whole
history the close routine of the stale connection is invoked twice, not
exactly once: the recovery already happened inside the failing scope's exit,
where the except handler closed the stale connection and created the
replacement, and the generator cleanup then closed the stale connection a
second time. -/
theorem claim_C1_counterexample :
    let s1 := runScope none 0 allOk (fun _ => true) (fun _ => false)
    let s2 := runScope s1.stAfter s1.ctrAfter allOk (fun _ => false) (fun _ => false)
    s1.yielded = some 0 ∧
    s2.enterEv = [] ∧
    s2.yielded = some 1 ∧
    (s1.enterEv ++ s1.exitEv ++ s2.enterEv ++ s2.exitEv).count (Ev.closeCall 0)
      = 2 := by
  decide

/-- C1, amended: after a mid-use failure of the yielded connection, the
manager recovers during the exit of the same scope, not on the next
acquisition: the exit closes the stale connection, constructs a fresh
replacement and stores it, and then the generator cleanup closes the stale
connection once more, so its close routine runs twice in total; the outcomes
of the close calls are discarded, never propagated (the scope result is
independent of them); the next acquisition then performs no close and no
construction and yields the stored replacement, which is a newer handle than
the stale one. -/
theorem claim_C1_amended (c ctr : ℕ) (createOk bodyFails bf2 cf cf2 : ℕ → Bool)
    (hb : bodyFails c = true) (hc : createOk ctr = true) (hlt : c < ctr) :
    (runScope (some c) ctr createOk bodyFails cf).exitEv =
      [Ev.closeCall c, Ev.createCall ctr, Ev.closeCall c] ∧
    (runScope (some c) ctr createOk bodyFails cf).stAfter = some ctr ∧
    runScope (some c) ctr createOk bodyFails cf =
      runScope (some c) ctr createOk bodyFails cf2 ∧
    (runScope (runScope (some c) ctr createOk bodyFails cf).stAfter
        (runScope (some c) ctr createOk bodyFails cf).ctrAfter
        createOk bf2 cf).enterEv = [] ∧
    (runScope (runScope (some c) ctr createOk bodyFails cf).stAfter
        (runScope (some c) ctr createOk bodyFails cf).ctrAfter
        createOk bf2 cf).yielded = some ctr ∧
    ctr ≠ c := by
  have h1 : runScope (some c) ctr createOk bodyFails cf =
      ⟨[], [.closeCall c, .createCall ctr, .closeCall c], some c, some ctr,
        ctr + 1, true⟩ := by
    simp [runScope, scopeBody, hb, hc]
  have h2 : runScope (some c) ctr createOk bodyFails cf2 =
      ⟨[], [.closeCall c, .createCall ctr, .closeCall c], some c, some ctr,
        ctr + 1, true⟩ := by
    simp [runScope, scopeBody, hb, hc]
  refine ⟨by rw [h1], by rw [h1], h1.trans h2.symm, ?_, ?_, by omega⟩
  · rw [h1]
    cases hbf2 : bf2 ctr <;> cases hco : createOk (ctr + 1) <;>
      simp [runScope, scopeBody, hbf2, hco]
  · rw [h1]
    cases hbf2 : bf2 ctr <;> cases hco : createOk (ctr + 1) <;>
      simp [runScope, scopeBody, hbf2, hco]

/-- C1, witness: the amended theorem applied to the concrete scenario of the
counterexample. -/
theorem claim_C1_witness :
    (runScope (some 0) 1 allOk (fun _ => true) (fun _ => false)).exitEv =
      [Ev.closeCall 0, Ev.createCall 1, Ev.closeCall 0] ∧
    (runScope (some 0) 1 allOk (fun _ => true) (fun _ => false)).stAfter =
      some 1 ∧
    runScope (some 0) 1 allOk (fun _ => true) (fun _ => false) =
      runScope (some 0) 1 allOk (fun _ => true) (fun _ => true) ∧
    (runScope (runScope (some 0) 1 allOk (fun _ => true) (fun _ => false)).stAfter
        (runScope (some 0) 1 allOk (fun _ => true) (fun _ => false)).ctrAfter
        allOk (fun _ => false) (fun _ => false)).enterEv = [] ∧
    (runScope (runScope (some 0) 1 allOk (fun _ => true) (fun _ => false)).stAfter
        (runScope (some 0) 1 allOk (fun _ => true) (fun _ => false)).ctrAfter
        allOk (fun _ => false) (fun _ => false)).yielded = some 1 ∧
    (1 : ℕ) ≠ 0 :=
  claim_C1_amended 0 1 allOk (fun _ => true) (fun _ => false) (fun _ => false)
    (fun _ => true) rfl rfl (by decide)

/-! Claim C5: error propagation of the sampling endpoints. -/

/-- C5: a failed current-block fetch propagates out of both endpoints, while
with a successful current-block fetch the endpoints always succeed no matter
which per-block samples fail: the returned block numbers are exactly the
blocks of the range whose sample succeeded, so a failed balance sample is
dropped and a failed stake sample is skipped with the loop continuing. -/
theorem claim_C5 (days : ℤ) (e : ChainErr)
    (sampleB sampleS : ℤ → Except ChainErr (DateTime × ℚ)) :
    get_historical_balance (.error e) sampleB days = .error e ∧
    get_historical_stake (.error e) sampleS days = .error e ∧
    ∀ current : ℤ,
      get_historical_balance (.ok current) sampleB days =
        .ok (balanceSeries current sampleB days) ∧
      get_historical_stake (.ok current) sampleS days =
        .ok (stakeSeries current sampleS days) ∧
      (balanceSeries current sampleB days).map (fun r => r.block_number) =
        (blocksRange current days).filter (fun b => (sampleB b).isOk) ∧
      (stakeSeries current sampleS days).map (fun r => r.block_number) =
        (blocksRange current days).filter (fun b => (sampleS b).isOk) := by
  exact ⟨rfl, rfl, fun current =>
    ⟨rfl, rfl, balanceSeries_map_block current sampleB days,
      stakeSeries_map_block current sampleS days⟩⟩

/-! Claim C10: non-positive day counts. -/

/-- C10: for days at most 0 the block sequence is empty, both endpoints
return an empty series without error, and no per-block query is issued at
all: the series does not depend on the per-block sampling oracle (only the
current-block fetch takes place). -/
theorem claim_C10 (days : ℤ) (hd : days ≤ 0) (current : ℤ)
    (sampleB sampleS sampleB2 sampleS2 : ℤ → Except ChainErr (DateTime × ℚ)) :
    blocksRange current days = [] ∧
    get_historical_balance (.ok current) sampleB days = .ok [] ∧
    get_historical_stake (.ok current) sampleS days = .ok [] ∧
    balanceSeries current sampleB days = balanceSeries current sampleB2 days ∧
    stakeSeries current sampleS days = stakeSeries current sampleS2 days := by
  have hb : blocksRange current days = [] := blocksRange_nil current hd
  have h1 : ∀ f, balanceSeries current f days = [] := fun f => by
    rw [balanceSeries_eq, hb]; rfl
  have h2 : ∀ f, stakeSeries current f days = [] := fun f => by
    rw [stakeSeries_eq, hb]; rfl
  exact ⟨hb, congrArg Except.ok (h1 sampleB), congrArg Except.ok (h2 sampleS),
    (h1 sampleB).trans (h1 sampleB2).symm, (h2 sampleS).trans (h2 sampleS2).symm⟩

/-- C10, witness: the theorem applied at days = 0 with concrete oracles. -/
theorem claim_C10_witness :
    blocksRange 5000 0 = [] ∧
    get_historical_balance (.ok 5000) (fun _ => .error 3) 0 = .ok [] ∧
    get_historical_stake (.ok 5000) (fun _ => .error 3) 0 = .ok [] ∧
    balanceSeries 5000 (fun _ => .error 3) 0 =
      balanceSeries 5000 (fun _ => .ok (⟨0, 0⟩, 1)) 0 ∧
    stakeSeries 5000 (fun _ => .error 3) 0 =
      stakeSeries 5000 (fun _ => .ok (⟨0, 0⟩, 1)) 0 :=
  claim_C10 0 (by decide) 5000 (fun _ => .error 3) (fun _ => .error 3)
    (fun _ => .ok (⟨0, 0⟩, 1)) (fun _ => .ok (⟨0, 0⟩, 1))

/-! Claim C4: shape of the sampled series. -/

/-- C4: for days at least 1, each of the balance and stake series has at most
days entries whose block numbers are pairwise strictly descending (hence
unique); the sampled heights all lie strictly above current - days * 7200 and
at most at current, with current itself sampled; and when no sample fails the
returned block numbers are exactly the block range, so consecutive returned
block numbers differ by exactly 7200. -/
theorem claim_C4 (days current : ℤ) (hd : 1 ≤ days)
    (sampleB sampleS : ℤ → Except ChainErr (DateTime × ℚ)) :
    (balanceSeries current sampleB days).length ≤ days.toNat ∧
    ((balanceSeries current sampleB days).map (fun r => r.block_number)).Pairwise
      (· > ·) ∧
    (stakeSeries current sampleS days).length ≤ days.toNat ∧
    ((stakeSeries current sampleS days).map (fun r => r.block_number)).Pairwise
      (· > ·) ∧
    (∀ b ∈ blocksRange current days,
      current - days * BLOCKS_PER_DAY < b ∧ b ≤ current) ∧
    current ∈ blocksRange current days ∧
    ((∀ b ∈ blocksRange current days, (sampleB b).isOk) →
      (balanceSeries current sampleB days).map (fun r => r.block_number) =
        blocksRange current days ∧
      List.Chain' (fun a b => a - b = BLOCKS_PER_DAY)
        ((balanceSeries current sampleB days).map (fun r => r.block_number))) ∧
    ((∀ b ∈ blocksRange current days, (sampleS b).isOk) →
      (stakeSeries current sampleS days).map (fun r => r.block_number) =
        blocksRange current days ∧
      List.Chain' (fun a b => a - b = BLOCKS_PER_DAY)
        ((stakeSeries current sampleS days).map (fun r => r.block_number))) := by
  have hlenB : (balanceSeries current sampleB days).length ≤ days.toNat := by
    have hm := congrArg List.length (balanceSeries_map_block current sampleB days)
    rw [List.length_map] at hm
    calc (balanceSeries current sampleB days).length
        = ((blocksRange current days).filter (fun b => (sampleB b).isOk)).length :=
          hm
      _ ≤ (blocksRange current days).length := List.length_filter_le _ _
      _ = days.toNat := blocksRange_length current days
  have hlenS : (stakeSeries current sampleS days).length ≤ days.toNat := by
    have hm := congrArg List.length (stakeSeries_map_block current sampleS days)
    rw [List.length_map] at hm
    calc (stakeSeries current sampleS days).length
        = ((blocksRange current days).filter (fun b => (sampleS b).isOk)).length :=
          hm
      _ ≤ (blocksRange current days).length := List.length_filter_le _ _
      _ = days.toNat := blocksRange_length current days
  have hpB : ((balanceSeries current sampleB days).map
      (fun r => r.block_number)).Pairwise (· > ·) := by
    rw [balanceSeries_map_block]
    exact List.Pairwise.sublist (List.filter_sublist _)
      (blocksRange_pairwise current days)
  have hpS : ((stakeSeries current sampleS days).map
      (fun r => r.block_number)).Pairwise (· > ·) := by
    rw [stakeSeries_map_block]
    exact List.Pairwise.sublist (List.filter_sublist _)
      (blocksRange_pairwise current days)
  have hgB : (∀ b ∈ blocksRange current days, (sampleB b).isOk) →
      (balanceSeries current sampleB days).map (fun r => r.block_number) =
        blocksRange current days ∧
      List.Chain' (fun a b => a - b = BLOCKS_PER_DAY)
        ((balanceSeries current sampleB days).map (fun r => r.block_number)) := by
    intro hall
    have hmap : (balanceSeries current sampleB days).map
        (fun r => r.block_number) = blocksRange current days :=
      (balanceSeries_map_block current sampleB days).trans
        (List.filter_eq_self.mpr hall)
    exact ⟨hmap, hmap ▸ blocksRange_chain current days⟩
  have hgS : (∀ b ∈ blocksRange current days, (sampleS b).isOk) →
      (stakeSeries current sampleS days).map (fun r => r.block_number) =
        blocksRange current days ∧
      List.Chain' (fun a b => a - b = BLOCKS_PER_DAY)
        ((stakeSeries current sampleS days).map (fun r => r.block_number)) := by
    intro hall
    have hmap : (stakeSeries current sampleS days).map
        (fun r => r.block_number) = blocksRange current days :=
      (stakeSeries_map_block current sampleS days).trans
        (List.filter_eq_self.mpr hall)
    exact ⟨hmap, hmap ▸ blocksRange_chain current days⟩
  exact ⟨hlenB, hpB, hlenS, hpS, blocksRange_mem_bounds hd,
    blocksRange_self_mem hd, hgB, hgS⟩

/-- C4, witness: the theorem applied with days = 2, current block 20000 and
all-successful oracles. -/
theorem claim_C4_witness :
    (balanceSeries 20000 (fun _ => .ok (⟨0, 0⟩, 1)) 2).length ≤ (2 : ℤ).toNat ∧
    20000 ∈ blocksRange 20000 2 ∧
    (balanceSeries 20000 (fun _ => .ok (⟨0, 0⟩, 1)) 2).map
      (fun r => r.block_number) = blocksRange 20000 2 ∧
    (stakeSeries 20000 (fun _ => .ok (⟨0, 0⟩, 1)) 2).map
      (fun r => r.block_number) = blocksRange 20000 2 :=
  have h := claim_C4 2 20000 (by decide) (fun _ => .ok (⟨0, 0⟩, 1))
    (fun _ => .ok (⟨0, 0⟩, 1))
  ⟨h.1, h.2.2.2.2.2.1, (h.2.2.2.2.2.2.1 (fun b _ => rfl)).1,
    (h.2.2.2.2.2.2.2 (fun b _ => rfl)).1⟩

/-! Helper lemmas about the defaultdict model used by the aggregation. -/

theorem dictGet?_isSome_iff (m : List (DateTime × DayAccum)) (d : DateTime) :
    (dictGet? m d).isSome ↔ d ∈ m.map Prod.fst := by
  induction m with
  | nil => simp [dictGet?]
  | cons kv rest ih =>
    obtain ⟨k, v⟩ := kv
    by_cases hk : k = d
    · subst hk; simp [dictGet?]
    · simp only [dictGet?, if_neg hk, List.map_cons, List.mem_cons, ih]
      exact ⟨fun h => Or.inr h, fun h => h.resolve_left (fun hh => hk hh.symm)⟩

theorem dictGet?_dictSet (m : List (DateTime × DayAccum)) (d2 : DateTime)
    (f : DayAccum → DayAccum) (d : DateTime) :
    dictGet? (dictSet m d2 f) d =
      if d = d2 then some (f ((dictGet? m d2).getD dayAccumDefault))
      else dictGet? m d := by
  induction m with
  | nil =>
    by_cases h : d = d2
    · subst h; simp [dictSet, dictGet?]
    · have h2 : ¬ (d2 = d) := fun hh => h hh.symm
      simp [dictSet, dictGet?, h, h2]
  | cons kv rest ih =>
    obtain ⟨k, v⟩ := kv
    simp only [dictSet]
    by_cases hk : k = d2
    · subst hk
      rw [if_pos rfl]
      by_cases hd : d = k
      · subst hd; simp [dictGet?]
      · have hk2 : ¬ (k = d) := fun hh => hd hh.symm
        simp [dictGet?, hk2, hd]
    · rw [if_neg hk]
      simp only [dictGet?]
      by_cases hkd : k = d
      · subst hkd
        rw [if_pos rfl, if_neg (fun hh : k = d2 => hk hh)]
        simp [dictGet?]
      · rw [if_neg hkd, ih]
        by_cases hd2 : d = d2
        · subst hd2
          rw [if_pos rfl, if_pos rfl]
          simp [dictGet?, hk]
        · rw [if_neg hd2, if_neg hd2]
          simp [dictGet?, hkd]

theorem keys_dictSet (m : List (DateTime × DayAccum)) (d : DateTime)
    (f : DayAccum → DayAccum) :
    (dictSet m d f).map Prod.fst =
      if (dictGet? m d).isSome then m.map Prod.fst
      else m.map Prod.fst ++ [d] := by
  induction m with
  | nil => simp [dictSet, dictGet?]
  | cons kv rest ih =>
    obtain ⟨k, v⟩ := kv
    by_cases hk : k = d
    · subst hk; simp [dictSet, dictGet?]
    · simp only [dictSet, if_neg hk, List.map_cons, dictGet?, ih]
      by_cases hs : (dictGet? rest d).isSome <;> simp [hs, hk]

theorem nodup_keys_dictSet (m : List (DateTime × DayAccum)) (d : DateTime)
    (f : DayAccum → DayAccum) (h : (m.map Prod.fst).Nodup) :
    ((dictSet m d f).map Prod.fst).Nodup := by
  rw [keys_dictSet]
  by_cases hs : (dictGet? m d).isSome
  · simpa [hs] using h
  · have hd : d ∉ m.map Prod.fst := fun hmem => hs ((dictGet?_isSome_iff m d).mpr hmem)
    simp [hs, List.nodup_append, h, hd]

theorem foldl_dictSet_nodup (g : ℚ → DayAccum → DayAccum) :
    ∀ (l : List (ℤ × DateTime × ℚ)) (m : List (DateTime × DayAccum)),
      (m.map Prod.fst).Nodup →
      ((l.foldl (fun m r => dictSet m r.2.1.trunc (g r.2.2)) m).map Prod.fst).Nodup
  | [], _, h => h
  | r :: l, m, h =>
    foldl_dictSet_nodup g l (dictSet m r.2.1.trunc (g r.2.2))
      (nodup_keys_dictSet m r.2.1.trunc (g r.2.2) h)

theorem dictGet?_isSome_dictSet (m : List (DateTime × DayAccum))
    (d2 : DateTime) (f : DayAccum → DayAccum) (d : DateTime)
    (h : (dictGet? m d).isSome) : (dictGet? (dictSet m d2 f) d).isSome := by
  rw [dictGet?_dictSet]
  by_cases hd : d = d2 <;> simp [hd, h]

theorem foldl_dictSet_isSome (g : ℚ → DayAccum → DayAccum) (d : DateTime) :
    ∀ (l : List (ℤ × DateTime × ℚ)) (m : List (DateTime × DayAccum)),
      ((∃ r ∈ l, r.2.1.trunc = d) ∨ (dictGet? m d).isSome) →
      (dictGet? (l.foldl (fun m r => dictSet m r.2.1.trunc (g r.2.2)) m) d).isSome
  | [], _, h => by
    rcases h with ⟨r, hr, _⟩ | h
    · simp at hr
    · exact h
  | r :: l, m, h => by
    rw [List.foldl_cons]
    apply foldl_dictSet_isSome g d l
    rcases h with ⟨r2, hr2, hd⟩ | h
    · rcases List.mem_cons.mp hr2 with rfl | hmem
      · right
        rw [dictGet?_dictSet]
        simp [hd]
      · exact Or.inl ⟨r2, hmem, hd⟩
    · exact Or.inr (dictGet?_isSome_dictSet m _ _ d h)

theorem foldl_dictSet_other (g : ℚ → DayAccum → DayAccum) (d : DateTime) :
    ∀ (l : List (ℤ × DateTime × ℚ)) (m : List (DateTime × DayAccum)),
      (∀ r ∈ l, r.2.1.trunc ≠ d) →
      dictGet? (l.foldl (fun m r => dictSet m r.2.1.trunc (g r.2.2)) m) d
        = dictGet? m d
  | [], _, _ => rfl
  | r :: l, m, h => by
    have hne : r.2.1.trunc ≠ d := h r (List.mem_cons_self r l)
    rw [List.foldl_cons,
      foldl_dictSet_other g d l _ (fun r2 hr2 => h r2 (List.mem_cons_of_mem _ hr2)),
      dictGet?_dictSet, if_neg (fun hh => hne hh.symm)]

theorem foldl_balance_stake0 (d : DateTime) :
    ∀ (l : List (ℤ × DateTime × ℚ)) (m : List (DateTime × DayAccum)),
      (∀ s, dictGet? m d = some s → s.stake = 0) →
      ∀ s, dictGet?
        (l.foldl
          (fun m r => dictSet m r.2.1.trunc (fun a => { a with balance := r.2.2 }))
          m) d = some s → s.stake = 0
  | [], _, h => h
  | r :: l, m, h => by
    rw [List.foldl_cons]
    apply foldl_balance_stake0 d l
    intro s hs
    rw [dictGet?_dictSet] at hs
    by_cases hd : d = r.2.1.trunc
    · rw [if_pos hd] at hs
      have hs2 := (Option.some.inj hs).symm
      subst hs2
      cases hget : dictGet? m r.2.1.trunc with
      | none => simp [hget, dayAccumDefault]
      | some a =>
        have ha : a.stake = 0 := h a (by rw [hd, hget])
        simp [hget, ha]
    · rw [if_neg hd] at hs
      exact h s hs

theorem foldl_stake_balance0 (d : DateTime) :
    ∀ (l : List (ℤ × DateTime × ℚ)) (m : List (DateTime × DayAccum)),
      (∀ s, dictGet? m d = some s → s.balance = 0) →
      ∀ s, dictGet?
        (l.foldl
          (fun m r => dictSet m r.2.1.trunc (fun a => { a with stake := r.2.2 }))
          m) d = some s → s.balance = 0
  | [], _, h => h
  | r :: l, m, h => by
    rw [List.foldl_cons]
    apply foldl_stake_balance0 d l
    intro s hs
    rw [dictGet?_dictSet] at hs
    by_cases hd : d = r.2.1.trunc
    · rw [if_pos hd] at hs
      have hs2 := (Option.some.inj hs).symm
      subst hs2
      cases hget : dictGet? m r.2.1.trunc with
      | none => simp [hget, dayAccumDefault]
      | some a =>
        have ha : a.balance = 0 := h a (by rw [hd, hget])
        simp [hget, ha]
    · rw [if_neg hd] at hs
      exact h s hs

theorem dictGet?_mem (m : List (DateTime × DayAccum)) (d : DateTime)
    (s : DayAccum) (h : dictGet? m d = some s) : (d, s) ∈ m := by
  induction m with
  | nil => simp [dictGet?] at h
  | cons kv rest ih =>
    obtain ⟨k, v⟩ := kv
    by_cases hk : k = d
    · subst hk
      rw [dictGet?, if_pos rfl] at h
      exact List.mem_cons.mpr (Or.inl (by rw [Option.some.inj h]))
    · rw [dictGet?, if_neg hk] at h
      exact List.mem_cons_of_mem _ (ih h)

/-! Helper lemmas about the datetime comparison used by sorted(). -/

theorem dtLeb_trans (a b c : DateTime) (h1 : dtLeb a b = true)
    (h2 : dtLeb b c = true) : dtLeb a c = true := by
  simp only [dtLeb, Bool.or_eq_true, Bool.and_eq_true, decide_eq_true_eq] at *
  rcases h1 with h1 | ⟨h1e, h1t⟩ <;> rcases h2 with h2 | ⟨h2e, h2t⟩
  · exact Or.inl (by omega)
  · exact Or.inl (by omega)
  · exact Or.inl (by omega)
  · exact Or.inr ⟨by omega, h1t.trans h2t⟩

theorem dtLeb_total (a b : DateTime) : dtLeb a b || dtLeb b a := by
  simp only [dtLeb, Bool.or_eq_true, Bool.and_eq_true, decide_eq_true_eq]
  rcases lt_trichotomy a.day b.day with h | h | h
  · exact Or.inl (Or.inl h)
  · rcases le_total a.tod b.tod with ht | ht
    · exact Or.inl (Or.inr ⟨h, ht⟩)
    · exact Or.inr (Or.inr ⟨h.symm, ht⟩)
  · exact Or.inr (Or.inl h)

theorem dtLeb_ne_ltP (a b : DateTime) (h : dtLeb a b = true) (hne : a ≠ b) :
    DateTime.ltP a b := by
  simp only [dtLeb, Bool.or_eq_true, Bool.and_eq_true, decide_eq_true_eq] at h
  rcases h with h | ⟨he, ht⟩
  · exact Or.inl h
  · refine Or.inr ⟨he, lt_of_le_of_ne ht ?_⟩
    intro hteq
    exact hne (by cases a; cases b; simp_all)

theorem aggregateDaily_eq (bal stk : List (ℤ × DateTime × ℚ)) :
    aggregateDaily bal stk =
      ((stk.foldl
          (fun m r => dictSet m r.2.1.trunc (fun s => { s with stake := r.2.2 }))
          (bal.foldl
            (fun m r => dictSet m r.2.1.trunc (fun s => { s with balance := r.2.2 }))
            [])).mergeSort (fun a b => dtLeb a.1 b.1)).map
        (fun p => ⟨p.1, p.2.balance, p.2.stake⟩) := rfl

/-! Claim C7: missing-metric defaults in the merged daily series. -/

/-- C7: a day represented in the balance samples but in no stake sample is
emitted in the merged output with stake 0.0, and a day represented in the
stake samples but in no balance sample is emitted with balance 0.0. -/
theorem claim_C7 (bal stk : List (ℤ × DateTime × ℚ)) (d : DateTime) :
    ((∃ r ∈ bal, r.2.1.trunc = d) → (∀ r ∈ stk, r.2.1.trunc ≠ d) →
      ∃ dd ∈ aggregateDaily bal stk, dd.date = d ∧ dd.stake = 0) ∧
    ((∃ r ∈ stk, r.2.1.trunc = d) → (∀ r ∈ bal, r.2.1.trunc ≠ d) →
      ∃ dd ∈ aggregateDaily bal stk, dd.date = d ∧ dd.balance = 0) := by
  constructor
  · intro hbal hstk
    have h1some : (dictGet?
        (bal.foldl
          (fun m r => dictSet m r.2.1.trunc (fun a => { a with balance := r.2.2 }))
          []) d).isSome :=
      foldl_dictSet_isSome (fun v a => { a with balance := v }) d bal []
        (Or.inl hbal)
    obtain ⟨s, hs⟩ := Option.isSome_iff_exists.mp h1some
    have hstake0 : s.stake = 0 :=
      foldl_balance_stake0 d bal []
        (fun s2 hs2 => by simp [dictGet?] at hs2) s hs
    have h2 : dictGet?
        (stk.foldl
          (fun m r => dictSet m r.2.1.trunc (fun a => { a with stake := r.2.2 }))
          (bal.foldl
            (fun m r =>
              dictSet m r.2.1.trunc (fun a => { a with balance := r.2.2 }))
            [])) d = some s := by
      rw [foldl_dictSet_other (fun v a => { a with stake := v }) d stk _ hstk]
      exact hs
    refine ⟨⟨d, s.balance, s.stake⟩, ?_, rfl, hstake0⟩
    rw [aggregateDaily_eq]
    exact List.mem_map.mpr
      ⟨(d, s), List.mem_mergeSort.mpr (dictGet?_mem _ _ _ h2), rfl⟩
  · intro hstk hbal
    have h1none : dictGet?
        (bal.foldl
          (fun m r => dictSet m r.2.1.trunc (fun a => { a with balance := r.2.2 }))
          []) d = none := by
      rw [foldl_dictSet_other (fun v a => { a with balance := v }) d bal [] hbal]
      rfl
    have h2some : (dictGet?
        (stk.foldl
          (fun m r => dictSet m r.2.1.trunc (fun a => { a with stake := r.2.2 }))
          (bal.foldl
            (fun m r =>
              dictSet m r.2.1.trunc (fun a => { a with balance := r.2.2 }))
            [])) d).isSome :=
      foldl_dictSet_isSome (fun v a => { a with stake := v }) d stk _
        (Or.inl hstk)
    obtain ⟨s, hs⟩ := Option.isSome_iff_exists.mp h2some
    have hbal0 : s.balance = 0 :=
      foldl_stake_balance0 d stk _
        (fun s2 hs2 => by rw [h1none] at hs2; exact absurd hs2 (by simp)) s hs
    refine ⟨⟨d, s.balance, s.stake⟩, ?_, rfl, hbal0⟩
    rw [aggregateDaily_eq]
    exact List.mem_map.mpr
      ⟨(d, s), List.mem_mergeSort.mpr (dictGet?_mem _ _ _ hs), rfl⟩

/-- C7, witness: the theorem applied to a one-sample balance series with no
stake samples, and to a one-sample stake series with no balance samples. -/
theorem claim_C7_witness :
    (∃ dd ∈ aggregateDaily [(7, ⟨3, 1/2⟩, 9)] [],
      dd.date = (⟨3, 0⟩ : DateTime) ∧ dd.stake = 0) ∧
    (∃ dd ∈ aggregateDaily [] [(7, ⟨3, 1/2⟩, 9)],
      dd.date = (⟨3, 0⟩ : DateTime) ∧ dd.balance = 0) :=
  ⟨(claim_C7 [(7, ⟨3, 1/2⟩, 9)] [] ⟨3, 0⟩).1
      ⟨(7, ⟨3, 1/2⟩, 9), by simp, by simp [DateTime.trunc]⟩ (by simp),
   (claim_C7 [] [(7, ⟨3, 1/2⟩, 9)] ⟨3, 0⟩).2
      ⟨(7, ⟨3, 1/2⟩, 9), by simp, by simp [DateTime.trunc]⟩ (by simp)⟩

/-! Claim C8: shape of the merged daily series. -/

/-- C8: for every pair of input series, the merged output has at most one
entry per distinct date — the emitted dates are pairwise distinct — and is
sorted in strictly ascending chronological order of date. -/
theorem claim_C8 (bal stk : List (ℤ × DateTime × ℚ)) :
    ((aggregateDaily bal stk).map (fun e => e.date)).Nodup ∧
    ((aggregateDaily bal stk).map (fun e => e.date)).Pairwise DateTime.ltP := by
  have hdates : (aggregateDaily bal stk).map (fun e => e.date) =
      ((stk.foldl
          (fun m r => dictSet m r.2.1.trunc (fun s => { s with stake := r.2.2 }))
          (bal.foldl
            (fun m r =>
              dictSet m r.2.1.trunc (fun s => { s with balance := r.2.2 }))
            [])).mergeSort (fun a b => dtLeb a.1 b.1)).map Prod.fst := by
    rw [aggregateDaily_eq, List.map_map]
    rfl
  have hnodupm2 : ((stk.foldl
      (fun m r => dictSet m r.2.1.trunc (fun s => { s with stake := r.2.2 }))
      (bal.foldl
        (fun m r =>
          dictSet m r.2.1.trunc (fun s => { s with balance := r.2.2 }))
        [])).map Prod.fst).Nodup :=
    foldl_dictSet_nodup (fun v a => { a with stake := v }) stk _
      (foldl_dictSet_nodup (fun v a => { a with balance := v }) bal [] (by simp))
  have hperm := (List.mergeSort_perm
    (stk.foldl
      (fun m r => dictSet m r.2.1.trunc (fun s => { s with stake := r.2.2 }))
      (bal.foldl
        (fun m r =>
          dictSet m r.2.1.trunc (fun s => { s with balance := r.2.2 }))
        [])) (fun a b => dtLeb a.1 b.1)).map Prod.fst
  have hnodup_sorted := (hperm.nodup_iff).mpr hnodupm2
  have hsorted := List.sorted_mergeSort
    (fun p q r h1 h2 => dtLeb_trans p.1 q.1 r.1 h1 h2)
    (fun p q => dtLeb_total p.1 q.1)
    (stk.foldl
      (fun m r => dictSet m r.2.1.trunc (fun s => { s with stake := r.2.2 }))
      (bal.foldl
        (fun m r =>
          dictSet m r.2.1.trunc (fun s => { s with balance := r.2.2 }))
        []))
  have hpw : (((stk.foldl
      (fun m r => dictSet m r.2.1.trunc (fun s => { s with stake := r.2.2 }))
      (bal.foldl
        (fun m r =>
          dictSet m r.2.1.trunc (fun s => { s with balance := r.2.2 }))
        [])).mergeSort (fun a b => dtLeb a.1 b.1)).map Prod.fst).Pairwise
      (fun a b => dtLeb a b = true) :=
    List.pairwise_map.mpr hsorted
  rw [hdates]
  exact ⟨hnodup_sorted,
    (List.Pairwise.and hpw hnodup_sorted).imp
      (fun hab => dtLeb_ne_ltP _ _ hab.1 hab.2)⟩

end TaoWidget
